import Mathlib

/-!
Verification of the streaming composition engine (`RunnablePassthrough` /
`RunnableAssign` in `langchain/schema/runnable/passthrough.py`), the
chain run mapper (`ChainStringRunMapper` in
`evaluation/run_evaluators/string_run_evaluator.py`) and the pairwise
embedding evaluator (`evaluation/comparison/embedding.py`).

Structured Records (Python `dict`s with string keys) are embedded as ordered
association lists `List (String × α)`; items flowing through a stream are
embedded as `Item α` (a record, a non-record scalar such as a bare integer,
or Python `None`). A Python generator run is embedded as the pair of the list
of chunks it yielded and an optional error it raised after yielding them.
-/

set_option maxHeartbeats 1000000

/-- An item flowing through a stream: a Structured Record (Python `dict`
with string keys and values of type `α`), a non-record scalar (e.g. a bare
integer), or Python `None`. -/
inductive Item (α : Type) where
  | record : List (String × α) → Item α
  | scalar : α → Item α
  | null : Item α
deriving DecidableEq, Repr

/-- `isinstance(x, dict)` on an item. -/
def Item.isRecord {α : Type} : Item α → Bool
  | Item.record _ => true
  | _ => false

/-- Python `dict` lookup `r[k]` on an ordered association list: the value of
the first entry with key `k`, if any. -/
def lookupR {α : Type} (k : String) : List (String × α) → Option α
  | [] => Option.none
  | p :: rest => if p.1 = k then some p.2 else lookupR k rest

/-- Python `k in r`. -/
def hasKeyR {α : Type} (k : String) (r : List (String × α)) : Bool :=
  (lookupR k r).isSome

/-- Python `dict` assignment `r[k] = v`: replace the value in place when the
key is present, otherwise append the new entry at the end. -/
def dictInsert {α : Type} (r : List (String × α)) (k : String) (v : α) :
    List (String × α) :=
  if hasKeyR k r then r.map (fun p => if p.1 = k then (k, v) else p)
  else r ++ [(k, v)]

/-- Python `\x7b**a, **b\x7d`: start from `a` and assign each entry of `b` in
order. -/
def dictMerge {α : Type} (a b : List (String × α)) : List (String × α) :=
  b.foldl (fun acc p => dictInsert acc p.1 p.2) a

/-- The passthrough filter of `RunnableAssign.transform`:
`\x7bk: v for k, v in chunk.items() if k not in mapper_keys\x7d`. -/
def filterKeys {α : Type} (ks : List String) (r : List (String × α)) :
    List (String × α) :=
  r.filter (fun p => !(ks.contains p.1))

/-- The named sub-tasks of a `RunnableParallel` mapper (`mapper.steps`): a
mapping from output key to the sub-task's `invoke` function on record
inputs. -/
abbrev Steps (α : Type) := List (String × (List (String × α) → α))

/-- Modelled from the spec: `RunnableParallel.invoke` (the Parallel Map
Combinator, whose source is not part of this slice) invokes each named
sub-task against the same input and collects a record whose keys are the
sub-task names and whose values are each sub-task's result. -/
def RunnableParallel.invoke {α : Type} (steps : Steps α)
    (input : List (String × α)) : List (String × α) :=
  steps.map (fun nf => (nf.1, nf.2 input))

/-- The error raised by the `assert isinstance(input, dict)` checks of
`RunnableAssign` (the spec's TypeMismatch). -/
inductive AssignError where
  | typeMismatch
deriving DecidableEq, Repr

/-- The passthrough-branch drain loop of `RunnableAssign.transform`
(`for chunk in for_passthrough: ...`): each record chunk is filtered by the
mapper key set and yielded when the filtered chunk is nonempty; a non-record
chunk stops the generator with a TypeMismatch after the chunks already
yielded. Returns the yielded filtered chunks and the optional error. -/
def drainPassthrough {α : Type} (ks : List String) :
    List (Item α) → List (List (String × α)) × Option AssignError
  | [] => ([], Option.none)
  | Item.record r :: rest =>
    let filtered := filterKeys ks r
    let res := drainPassthrough ks rest
    (if filtered.isEmpty then res.1 else filtered :: res.1, res.2)
  | _ :: _ => ([], some AssignError.typeMismatch)

/-- `RunnableAssign.transform`, parametrised by the chunk sequence `mout`
that the background map branch produces (the scheduler decides its order):
drain the passthrough branch synchronously, then yield the pre-fetched first
map chunk — `next(map_output, None)`, i.e. `None` when the map stream is
exhausted — then the remaining map chunks. Result: the yielded chunks and
the optional error the generator raised. -/
def RunnableAssign.transformWith {α : Type} (ks : List String)
    (mout : List (Item α)) (input : List (Item α)) :
    List (Item α) × Option AssignError :=
  let res := drainPassthrough ks input
  match res.2 with
  | some e => (res.1.map Item.record, some e)
  | Option.none =>
    (res.1.map Item.record ++ mout.headD Item.null :: mout.tail, Option.none)

/-- `RunnableAssign.atransform`, parametrised like `transformWith`: the async
code mirrors the sync code line for line (`py_anext(map_output, None)` with
default `None`, drained after the passthrough branch). -/
def RunnableAssign.atransformWith {α : Type} (ks : List String)
    (mout : List (Item α)) (input : List (Item α)) :
    List (Item α) × Option AssignError :=
  let res := drainPassthrough ks input
  match res.2 with
  | some e => (res.1.map Item.record, some e)
  | Option.none =>
    (res.1.map Item.record ++ mout.headD Item.null :: mout.tail, Option.none)

/-- `RunnableAssign.invoke`: assert the input is a dict, then return
`\x7b**input, **self.mapper.invoke(input)\x7d`. -/
def RunnableAssign.invokeV {α : Type} (steps : Steps α) (input : Item α) :
    Except AssignError (List (String × α)) :=
  match input with
  | Item.record r => Except.ok (dictMerge r (RunnableParallel.invoke steps r))
  | _ => Except.error AssignError.typeMismatch

/-- The chunks yielded by `RunnableAssign.stream` (which wraps the single
input as a one-element stream and delegates to `transform`), under the
scheduler ordering `mpairs` of the map-branch sub-task results: the map
branch wraps every sub-task chunk as a one-key record. -/
def RunnableAssign.streamScheduled {α : Type} (steps : Steps α)
    (x : List (String × α)) (mpairs : List (String × α)) : List (Item α) :=
  (RunnableAssign.transformWith (steps.map Prod.fst)
    (mpairs.map (fun p => Item.record [p])) [Item.record x]).1

/-- Modelled from the spec: the canonical-schedule chunks of
`RunnableAssign.stream(x)`. The map branch (`RunnableParallel.transform`,
whose source is not part of this slice) accumulates the one-element teed
input back to `x`; each sub-task, driven as a stream, contributes one chunk
(the default streaming of an invoke-defined unit yields its whole result
once), wrapped as the one-key record `\x7bname: result\x7d`. This fixes the
sub-task order to declaration order; `streamScheduled` quantifies over every
scheduler order. -/
def RunnableAssign.streamChunks {α : Type} (steps : Steps α)
    (x : List (String × α)) : List (Item α) :=
  RunnableAssign.streamScheduled steps x (RunnableParallel.invoke steps x)

/-- Modelled from the spec: accumulation of a fully consumed chunk stream
(the default `invoke`-from-`stream` derivation): the first chunk starts the
accumulator and every later Structured Record chunk is merged key-wise onto
it, duplicate keys in a later chunk overwriting earlier ones; accumulation
of a non-record onto a record (or vice versa) is undefined. -/
def addChunks {α : Type} (acc : Item α) : List (Item α) → Option (Item α)
  | [] => some acc
  | c :: cs =>
    match acc, c with
    | Item.record a, Item.record b => addChunks (Item.record (dictMerge a b)) cs
    | _, _ => Option.none

/-- Merge all chunks of a fully consumed stream, `Option.none` when the
stream is empty or the accumulation is undefined. -/
def mergeChunks {α : Type} : List (Item α) → Option (Item α)
  | [] => Option.none
  | c :: cs => addChunks c cs

/-- Python `dict` equality (order-insensitive): every key of each record
looks up to the same value in the other. -/
def recEqv {α : Type} [DecidableEq α] (a b : List (String × α)) : Bool :=
  a.all (fun p => lookupR p.1 b = lookupR p.1 a)
  && b.all (fun p => lookupR p.1 a = lookupR p.1 b)

/-- The merge of a chunk stream is a record equal (as a Python dict) to
`r`. -/
def mergeMatches {α : Type} [DecidableEq α] (chunks : List (Item α))
    (r : List (String × α)) : Bool :=
  match mergeChunks chunks with
  | some (Item.record m) => recEqv m r
  | _ => false

/-- The independent characterisation of the passthrough output: keep, in
input order, each record chunk's mapper-key-filtered residue when nonempty. -/
def passFiltered {α : Type} (ks : List String) (input : List (Item α)) :
    List (List (String × α)) :=
  input.filterMap (fun c =>
    match c with
    | Item.record r =>
      if (filterKeys ks r).isEmpty then Option.none else some (filterKeys ks r)
    | _ => Option.none)

/-- The `identity` function of `passthrough.py`. -/
def identity {β : Type} (x : β) : β := x

/-- Modelled from the spec: `Runnable._call_with_config` (source not part of
this slice) runs the given function on the input; callback and tracing
plumbing is opaque configuration with no effect on the value. -/
def callWithConfig {β γ : Type} (f : β → γ) (input : β) : γ := f input

/-- Modelled from the spec: `Runnable._transform_stream_with_config` (source
not part of this slice) drives the given iterator transformer over the input
stream and yields its chunks; callback plumbing has no effect on the
values. -/
def transformStreamWithConfig {β γ : Type} (f : List β → List γ)
    (input : List β) : List γ := f input

/-- `RunnablePassthrough.invoke`: `self._call_with_config(identity, input,
config)`. -/
def RunnablePassthrough.invoke {β : Type} (input : β) : β :=
  callWithConfig identity input

/-- `RunnablePassthrough.transform`:
`self._transform_stream_with_config(input, identity, config)` — the
transformer is the identity on the chunk iterator, so chunks pass unchanged. -/
def RunnablePassthrough.transform {β : Type} (input : List β) : List β :=
  transformStreamWithConfig identity input

/-- An execution record (`langchainplus_sdk.schemas.Run`): its inputs, its
optional outputs and its run type. `outputs` is `Option`al because the field
is optional in the schema; Python `not run.outputs` is also true of an empty
dict. -/
structure Run (α : Type) where
  inputs : List (String × α)
  outputs : Option (List (String × α))
  runType : String
deriving DecidableEq, Repr

/-- The errors `ChainStringRunMapper.map` raises (each a `ValueError`; the
key-missing ones are the spec's SourceMappingError). -/
inductive MapperError where
  | noOutputs
  | notChain
  | missingInputKey
  | missingPredictionKey
deriving DecidableEq, Repr

/-- `ChainStringRunMapper.map`: reject a run with falsy outputs, then a run
whose type is not "chain", then a missing input key, then a missing
prediction key; otherwise return
`\x7b"input": run.inputs[input_key], "prediction":
run.outputs[prediction_key]\x7d`. -/
def ChainStringRunMapper.map {α : Type} (inputKey predictionKey : String)
    (r : Run α) : Except MapperError (List (String × α)) :=
  match r.outputs with
  | Option.none => Except.error MapperError.noOutputs
  | some outs =>
    if outs.isEmpty then Except.error MapperError.noOutputs
    else if r.runType ≠ "chain" then Except.error MapperError.notChain
    else
      match lookupR inputKey r.inputs with
      | Option.none => Except.error MapperError.missingInputKey
      | some iv =>
        match lookupR predictionKey outs with
        | Option.none => Except.error MapperError.missingPredictionKey
        | some pv => Except.ok [("input", iv), ("prediction", pv)]

/-- `PairwiseEmbeddingStringEvalChain`, abstracted over its embedding
provider and the selected distance metric (external numeric collaborators):
`embed` is `embeddings.embed_documents`, `metric` the distance function
chosen by `_get_metric`. -/
structure EmbedChain (δ : Type) where
  embed : List String → List (List δ)
  metric : List δ → List δ → δ

/-- `PairwiseEmbeddingStringEvalChain._call`: embed the two-element document
list `[inputs["prediction"], inputs["prediction_b"]]`, compute
`metric(vectors[0], vectors[1])` and return `\x7b"score": score\x7d`; a
missing key is a Python `KeyError`, embedded as `Option.none`. -/
def EmbedChain.callC {δ : Type} (c : EmbedChain δ)
    (inputs : List (String × String)) : Option (List (String × δ)) :=
  match lookupR "prediction" inputs, lookupR "prediction_b" inputs with
  | some p, some pb =>
    let vectors := c.embed [p, pb]
    some [("score", c.metric (vectors.headD []) ((vectors.drop 1).headD []))]
  | _, _ => Option.none

/-- `PairwiseEmbeddingStringEvalChain._acall`: the async path embeds the same
two documents and computes the same score. -/
def EmbedChain.acallC {δ : Type} (c : EmbedChain δ)
    (inputs : List (String × String)) : Option (List (String × δ)) :=
  match lookupR "prediction" inputs, lookupR "prediction_b" inputs with
  | some p, some pb =>
    let vectors := c.embed [p, pb]
    some [("score", c.metric (vectors.headD []) ((vectors.drop 1).headD []))]
  | _, _ => Option.none

/-- `PairwiseEmbeddingStringEvalChain.evaluate_string_pairs`: accepts
`input` and `reference` keyword arguments but calls the chain with
`inputs=\x7b"prediction": prediction, "prediction_b": prediction_b\x7d`
only. -/
def EmbedChain.evaluateStringPairs {δ : Type} (c : EmbedChain δ)
    (prediction predictionB : String) (input? reference? : Option String) :
    Option (List (String × δ)) :=
  c.callC [("prediction", prediction), ("prediction_b", predictionB)]

/-- `PairwiseEmbeddingStringEvalChain.aevaluate_string_pairs`: the async
variant, delegating to `_acall` through `acall` with the same two-key
`inputs` dict. -/
def EmbedChain.aevaluateStringPairs {δ : Type} (c : EmbedChain δ)
    (prediction predictionB : String) (input? reference? : Option String) :
    Option (List (String × δ)) :=
  c.acallC [("prediction", prediction), ("prediction_b", predictionB)]

/-! ### Fact library on the record operations -/

theorem lookupR_eq_none {α : Type} (k : String) (l : List (String × α)) :
    lookupR k l = Option.none ↔ k ∉ l.map Prod.fst := by
  induction l with
  | nil => simp [lookupR]
  | cons p rest ih =>
    by_cases h : p.1 = k
    · subst h
      simp [lookupR]
    · rw [lookupR, if_neg h, ih]
      simp only [List.map_cons, List.mem_cons]
      constructor
      · intro hn hc
        rcases hc with hc | hc
        · exact h hc.symm
        · exact hn hc
      · intro hn hc
        exact hn (Or.inr hc)

theorem mem_of_lookupR {α : Type} {k : String} {v : α} {l : List (String × α)}
    (h : lookupR k l = some v) : (k, v) ∈ l := by
  induction l with
  | nil => simp [lookupR] at h
  | cons p rest ih =>
    obtain ⟨a, b⟩ := p
    by_cases hk : a = k
    · rw [lookupR, if_pos hk] at h
      have hb : b = v := Option.some.inj h
      rw [← hk, ← hb]
      exact List.mem_cons_self _ _
    · rw [lookupR, if_neg hk] at h
      exact List.mem_cons_of_mem _ (ih h)

theorem lookupR_of_mem {α : Type} {k : String} {v : α} {l : List (String × α)}
    (hnd : (l.map Prod.fst).Nodup) (h : (k, v) ∈ l) : lookupR k l = some v := by
  induction l with
  | nil => simp at h
  | cons p rest ih =>
    simp only [List.map_cons, List.nodup_cons] at hnd
    rcases List.mem_cons.mp h with h1 | h2
    · rw [← h1]
      simp [lookupR]
    · have hk : p.1 ≠ k := by
        intro he
        exact hnd.1 (he ▸ (List.mem_map.mpr ⟨(k, v), h2, rfl⟩))
      rw [lookupR, if_neg hk]
      exact ih hnd.2 h2

theorem lookupR_perm {α : Type} {l l' : List (String × α)} (hp : List.Perm l l')
    (hnd : (l.map Prod.fst).Nodup) (k : String) : lookupR k l = lookupR k l' := by
  have hnd' : (l'.map Prod.fst).Nodup := ((hp.map Prod.fst).nodup_iff).mp hnd
  cases hv : lookupR k l with
  | none =>
    have hk := (lookupR_eq_none k l).mp hv
    have hk' : k ∉ l'.map Prod.fst := fun hm =>
      hk (((hp.map Prod.fst).mem_iff).mpr hm)
    exact ((lookupR_eq_none k l').mpr hk').symm
  | some v =>
    exact ((lookupR_of_mem hnd' (hp.mem_iff.mp (mem_of_lookupR hv)))).symm

theorem lookupR_append {α : Type} (k : String) (a b : List (String × α)) :
    lookupR k (a ++ b) = (lookupR k a).or (lookupR k b) := by
  induction a with
  | nil => simp [lookupR]
  | cons p rest ih =>
    by_cases h : p.1 = k <;> simp [lookupR, h, ih]

theorem lookupR_map_subst_self {α : Type} (r : List (String × α)) (n : String)
    (v : α) :
    lookupR n (r.map (fun p => if p.1 = n then (n, v) else p)) =
      if hasKeyR n r then some v else Option.none := by
  induction r with
  | nil => simp [lookupR, hasKeyR]
  | cons p rest ih =>
    by_cases hp : p.1 = n
    · simp [lookupR, hp, hasKeyR]
    · simp only [List.map_cons, if_neg hp, lookupR, hasKeyR, ih]

theorem lookupR_map_subst_other {α : Type} (r : List (String × α))
    (n k : String) (v : α) (hnk : ¬n = k) :
    lookupR k (r.map (fun p => if p.1 = n then (n, v) else p)) = lookupR k r := by
  induction r with
  | nil => rfl
  | cons p rest ih =>
    by_cases hp : p.1 = n
    · have hpk : ¬p.1 = k := by rw [hp]; exact hnk
      simp only [List.map_cons, if_pos hp, lookupR, if_neg hnk, if_neg hpk, ih]
    · simp only [List.map_cons, if_neg hp, lookupR, ih]

theorem lookupR_dictInsert {α : Type} (r : List (String × α)) (n k : String)
    (v : α) :
    lookupR k (dictInsert r n v) = if n = k then some v else lookupR k r := by
  unfold dictInsert
  by_cases hk : hasKeyR n r = true
  · rw [if_pos hk]
    by_cases hnk : n = k
    · subst hnk
      rw [lookupR_map_subst_self, if_pos hk, if_pos rfl]
    · rw [lookupR_map_subst_other r n k v hnk, if_neg hnk]
  · have hkf : hasKeyR n r = false := by
      cases hb : hasKeyR n r
      · rfl
      · exact absurd hb hk
    rw [if_neg (by simp [hkf]), lookupR_append]
    by_cases hnk : n = k
    · subst hnk
      have hnone : lookupR n r = Option.none := by
        cases hl : lookupR n r with
        | none => rfl
        | some w => simp [hasKeyR, hl] at hkf
      simp [hnone, lookupR]
    · simp [lookupR, hnk]

theorem lookupR_foldl_dictInsert {α : Type} (ps : List (String × α))
    (a : List (String × α)) (hnd : (ps.map Prod.fst).Nodup) (k : String) :
    lookupR k (ps.foldl (fun acc p => dictInsert acc p.1 p.2) a) =
      (lookupR k ps).or (lookupR k a) := by
  induction ps generalizing a with
  | nil => simp [lookupR]
  | cons p rest ih =>
    simp only [List.map_cons, List.nodup_cons] at hnd
    rw [List.foldl_cons, ih _ hnd.2, lookupR_dictInsert]
    by_cases hpk : p.1 = k
    · have hrest : lookupR k rest = Option.none := by
        rw [lookupR_eq_none]
        intro hm
        exact hnd.1 (hpk ▸ hm)
      simp [lookupR, hpk, hrest]
    · simp [lookupR, hpk]

theorem lookupR_dictMerge {α : Type} (a b : List (String × α))
    (hnd : (b.map Prod.fst).Nodup) (k : String) :
    lookupR k (dictMerge a b) = (lookupR k b).or (lookupR k a) :=
  lookupR_foldl_dictInsert b a hnd k

theorem lookupR_filterKeys {α : Type} (ks : List String)
    (r : List (String × α)) (k : String) (hk : ks.contains k = false) :
    lookupR k (filterKeys ks r) = lookupR k r := by
  induction r with
  | nil => rfl
  | cons p rest ih =>
    rw [filterKeys, List.filter_cons]
    by_cases hp : ks.contains p.1 = true
    · have hpk : ¬p.1 = k := by
        intro he
        rw [he, hk] at hp
        exact Bool.false_ne_true hp
      rw [if_neg (by rw [hp]; decide), lookupR, if_neg hpk]
      exact ih
    · have hpf : ks.contains p.1 = false := by
        cases hb : ks.contains p.1
        · rfl
        · exact absurd hb hp
      rw [if_pos (by rw [hpf]; decide), lookupR, lookupR]
      by_cases hpk : p.1 = k
      · rw [if_pos hpk, if_pos hpk]
      · rw [if_neg hpk, if_neg hpk]
        exact ih

/-! ### Facts about chunk streams -/

theorem headD_cons_tail {β : Type} (l : List β) (d : β) (h : l ≠ []) :
    l.headD d :: l.tail = l := by
  cases l with
  | nil => exact absurd rfl h
  | cons a as => rfl

theorem addChunks_records {α : Type} (rs : List (List (String × α)))
    (a : List (String × α)) :
    addChunks (Item.record a) (rs.map Item.record) =
      some (Item.record (rs.foldl dictMerge a)) := by
  induction rs generalizing a with
  | nil => rfl
  | cons r rest ih =>
    rw [List.map_cons, List.foldl_cons]
    exact ih (dictMerge a r)

theorem foldl_dictMerge_singletons {α : Type} (ps : List (String × α))
    (a : List (String × α)) :
    (ps.map (fun p => [p])).foldl dictMerge a =
      ps.foldl (fun acc p => dictInsert acc p.1 p.2) a := by
  induction ps generalizing a with
  | nil => rfl
  | cons p rest ih =>
    rw [List.map_cons, List.foldl_cons, List.foldl_cons]
    exact ih _

theorem drainPassthrough_all_records {α : Type} (ks : List String)
    (input : List (Item α)) (hrec : input.all Item.isRecord = true) :
    drainPassthrough ks input = (passFiltered ks input, Option.none) := by
  induction input with
  | nil => rfl
  | cons c rest ih =>
    rw [List.all_cons, Bool.and_eq_true] at hrec
    cases c with
    | record r =>
      by_cases hf : (filterKeys ks r).isEmpty = true
      · simp [drainPassthrough, ih hrec.2, passFiltered, hf]
      · simp [drainPassthrough, ih hrec.2, passFiltered, hf]
    | scalar z => simp [Item.isRecord] at hrec
    | null => simp [Item.isRecord] at hrec

theorem drainPassthrough_bad_chunk {α : Type} (ks : List String)
    (input : List (Item α)) (hbad : input.all Item.isRecord = false) :
    drainPassthrough ks input =
      (passFiltered ks (input.takeWhile Item.isRecord),
        some AssignError.typeMismatch) := by
  induction input with
  | nil => simp at hbad
  | cons c rest ih =>
    cases c with
    | record r =>
      rw [List.all_cons] at hbad
      simp only [Item.isRecord, Bool.true_and] at hbad
      by_cases hf : (filterKeys ks r).isEmpty = true
      · simp [drainPassthrough, ih hbad, List.takeWhile_cons, Item.isRecord,
          passFiltered, hf]
      · simp [drainPassthrough, ih hbad, List.takeWhile_cons, Item.isRecord,
          passFiltered, hf]
    | scalar z => rfl
    | null => rfl

theorem recEqv_of_lookup_eq {α : Type} [DecidableEq α]
    {a b : List (String × α)} (h : ∀ k, lookupR k a = lookupR k b) :
    recEqv a b = true := by
  simp only [recEqv, Bool.and_eq_true, List.all_eq_true, decide_eq_true_eq]
  exact ⟨fun p _ => (h p.1).symm, fun p _ => h p.1⟩

/-! ### The claims -/

/-- Claim C6: the Identity unit satisfies `invoke(x) = x`, and its
`transform` yields exactly the input chunks unchanged, chunk for chunk, in
order, with no accumulation. -/
theorem C6_identity_unit {β : Type} (x : β) (chunks : List β) :
    RunnablePassthrough.invoke x = x ∧
    RunnablePassthrough.transform chunks = chunks :=
  ⟨rfl, rfl⟩

/-- Claim C10: for fixed predictions and a fixed embedding chain, the result
of `evaluate_string_pairs` (and `aevaluate_string_pairs`) is identical
across any two calls that differ only in their `input` and/or `reference`
arguments, and the async path agrees with the sync path. -/
theorem C10_ignores_input_and_reference {δ : Type} (c : EmbedChain δ)
    (prediction predictionB : String) (i1 r1 i2 r2 : Option String) :
    c.evaluateStringPairs prediction predictionB i1 r1 =
      c.evaluateStringPairs prediction predictionB i2 r2 ∧
    c.aevaluateStringPairs prediction predictionB i1 r1 =
      c.aevaluateStringPairs prediction predictionB i2 r2 ∧
    c.aevaluateStringPairs prediction predictionB i1 r1 =
      c.evaluateStringPairs prediction predictionB i1 r1 :=
  ⟨rfl, rfl, rfl⟩

/-- Claim C7: `ChainStringRunMapper.map` returns exactly
`\x7b"input": run.inputs[input_key], "prediction":
run.outputs[prediction_key]\x7d` when the run has outputs, has run type
"chain" and both configured keys are present; a missing extraction key
raises an error surfaced to the caller, with no partial result. -/
theorem C7_chain_run_mapper {α : Type} (inputKey predictionKey : String)
    (r : Run α) (outs : List (String × α)) (h1 : r.outputs = some outs)
    (h2 : outs.isEmpty = false) (h3 : r.runType = "chain") :
    ChainStringRunMapper.map inputKey predictionKey r =
      (match lookupR inputKey r.inputs, lookupR predictionKey outs with
       | some iv, some pv => Except.ok [("input", iv), ("prediction", pv)]
       | Option.none, _ => Except.error MapperError.missingInputKey
       | some _, Option.none => Except.error MapperError.missingPredictionKey) := by
  simp only [ChainStringRunMapper.map, h1]
  rw [if_neg (by simp [h2]), if_neg (by simp [h3])]
  cases lookupR inputKey r.inputs <;> cases lookupR predictionKey outs <;> rfl

/-- Claim C4: every passthrough chunk drained by `RunnableAssign.transform`
has all mapper keys removed; a chunk left empty by the removal is discarded
entirely, any other chunk is yielded as filtered, in input order. -/
theorem C4_passthrough_filter {α : Type} (ks : List String)
    (input : List (Item α)) (hrec : input.all Item.isRecord = true) :
    drainPassthrough ks input =
      (input.filterMap (fun c =>
        match c with
        | Item.record r =>
          if (filterKeys ks r).isEmpty = true then Option.none
          else some (filterKeys ks r)
        | _ => Option.none), Option.none) :=
  drainPassthrough_all_records ks input hrec

/-- Claim C2: for every input chunk sequence of Structured Records and every
map-branch output sequence (however fast the map branch produces it), the
output of `RunnableAssign.transform` is the passthrough-filtered chunks, in
input order, followed by the map-branch chunks, in their order; and
`atransform` behaves identically. -/
theorem C2_passthrough_before_map {α : Type} (ks : List String)
    (mout input : List (Item α)) (hrec : input.all Item.isRecord = true)
    (hm : mout ≠ []) :
    RunnableAssign.transformWith ks mout input =
      ((passFiltered ks input).map Item.record ++ mout, Option.none) ∧
    RunnableAssign.atransformWith ks mout input =
      RunnableAssign.transformWith ks mout input := by
  constructor
  · simp only [RunnableAssign.transformWith,
      drainPassthrough_all_records ks input hrec]
    rw [headD_cons_tail mout Item.null hm]
  · rfl

/-- Claim C8: when the map branch yields no chunks at all,
`RunnableAssign.transform` (and `atransform`) still yields one trailing
`None` item — which is not a Structured Record — after the passthrough
chunks, because `next(map_output, None)` returns its `None` default and the
pre-fetched result is yielded unconditionally. -/
theorem C8_trailing_none_chunk {α : Type} (ks : List String)
    (input : List (Item α)) (hrec : input.all Item.isRecord = true) :
    RunnableAssign.transformWith ks ([] : List (Item α)) input =
      ((passFiltered ks input).map Item.record ++ [Item.null], Option.none) ∧
    RunnableAssign.atransformWith ks ([] : List (Item α)) input =
      RunnableAssign.transformWith ks ([] : List (Item α)) input ∧
    (Item.null : Item α).isRecord = false := by
  refine ⟨?_, rfl, rfl⟩
  simp only [RunnableAssign.transformWith,
    drainPassthrough_all_records ks input hrec]
  rfl

/-- Claim C3: for every record input and sub-task mapping (with the distinct
names a Python dict guarantees), `RunnableAssign.invoke` returns the shallow
union of the input record and the mapper's output over the same input, with
mapper-produced keys taking precedence on collision. -/
theorem C3_invoke_shallow_union {α : Type} (steps : Steps α)
    (x : List (String × α)) (hk : (steps.map Prod.fst).Nodup) :
    RunnableAssign.invokeV steps (Item.record x) =
      Except.ok (dictMerge x (RunnableParallel.invoke steps x)) ∧
    ∀ k, lookupR k (dictMerge x (RunnableParallel.invoke steps x)) =
      ((lookupR k (RunnableParallel.invoke steps x)).or (lookupR k x)) := by
  refine ⟨rfl, fun k => ?_⟩
  have hnd : ((RunnableParallel.invoke steps x).map Prod.fst).Nodup := by
    rw [RunnableParallel.invoke, List.map_map]
    exact hk
  exact lookupR_dictMerge x _ hnd k

/-- Claim C5 (amended): a non-record item fails the call with TypeMismatch
at the point it is observed. `invoke` on a non-record input fails with no
result; `transform` raises when the non-record chunk is drained from the
passthrough branch, after having already yielded the filtered record chunks
that preceded it (so, contrary to the claim as stated, output already
yielded before the offending chunk is not suppressed). -/
theorem C5_type_mismatch {α : Type} (steps : Steps α) (z : α)
    (ks : List String) (mout input : List (Item α))
    (hbad : input.all Item.isRecord = false) :
    RunnableAssign.invokeV steps (Item.scalar z) =
      Except.error AssignError.typeMismatch ∧
    RunnableAssign.invokeV steps (Item.null : Item α) =
      Except.error AssignError.typeMismatch ∧
    RunnableAssign.transformWith ks mout input =
      ((passFiltered ks (input.takeWhile Item.isRecord)).map Item.record,
        some AssignError.typeMismatch) ∧
    RunnableAssign.atransformWith ks mout input =
      RunnableAssign.transformWith ks mout input := by
  refine ⟨rfl, rfl, ?_, rfl⟩
  simp only [RunnableAssign.transformWith,
    drainPassthrough_bad_chunk ks input hbad]

/-- Claim C5, as stated, is false: with mapper key set `\x7b"b"\x7d` and the
transform input chunks `\x7b"a": 1\x7d, 42`, the call does fail with
TypeMismatch when it reaches the bare integer, but the chunk `\x7b"a": 1\x7d`
has already been yielded, so output IS produced by the failing call. -/
theorem C5_counterexample :
    RunnableAssign.transformWith ["b"] ([] : List (Item Int))
        [Item.record [("a", 1)], Item.scalar 42] =
      ([Item.record [("a", 1)]], some AssignError.typeMismatch) ∧
    ([Item.record [("a", (1 : Int))]] ≠ ([] : List (Item Int))) := by
  exact ⟨by decide, by decide⟩

theorem foldl_dictInsert_nil_cons {α : Type} (q : String × α)
    (qs : List (String × α)) :
    (q :: qs).foldl (fun acc p => dictInsert acc p.1 p.2) [] =
      qs.foldl (fun acc p => dictInsert acc p.1 p.2) [q] := by
  rfl

theorem map_single_record {α : Type} (ps : List (String × α)) :
    ps.map (fun p => Item.record [p]) =
      (ps.map (fun p => [p])).map Item.record := by
  rw [List.map_map]
  rfl

theorem mergeChunks_singletons {α : Type} (ps : List (String × α))
    (h : ps ≠ []) :
    mergeChunks (ps.map (fun p => Item.record [p])) =
      some (Item.record
        (ps.foldl (fun acc p => dictInsert acc p.1 p.2) [])) := by
  cases ps with
  | nil => exact absurd rfl h
  | cons q qs =>
    rw [List.map_cons, mergeChunks, map_single_record, addChunks_records,
      foldl_dictMerge_singletons, foldl_dictInsert_nil_cons]

theorem mergeChunks_record_cons_singletons {α : Type}
    (a : List (String × α)) (ps : List (String × α)) :
    mergeChunks (Item.record a :: ps.map (fun p => Item.record [p])) =
      some (Item.record
        (ps.foldl (fun acc p => dictInsert acc p.1 p.2) a)) := by
  rw [mergeChunks, map_single_record, addChunks_records,
    foldl_dictMerge_singletons]

/-- Claim C1: for any mapper with at least one named sub-task and any record
input `x`, merging all chunks of `stream(x)` — under every scheduler
ordering of the map-branch chunks — produces a record equal, as a Python
dict, to `invoke(x)`. -/
theorem C1_stream_merge_matches_invoke {α : Type} [DecidableEq α]
    (steps : Steps α) (x mpairs : List (String × α)) (hn : steps ≠ [])
    (hk : (steps.map Prod.fst).Nodup)
    (hperm : List.Perm mpairs (RunnableParallel.invoke steps x)) :
    RunnableAssign.invokeV steps (Item.record x) =
      Except.ok (dictMerge x (RunnableParallel.invoke steps x)) ∧
    mergeMatches (RunnableAssign.streamScheduled steps x mpairs)
      (dictMerge x (RunnableParallel.invoke steps x)) = true := by
  refine ⟨rfl, ?_⟩
  have hmapped_keys :
      (RunnableParallel.invoke steps x).map Prod.fst = steps.map Prod.fst := by
    rw [RunnableParallel.invoke, List.map_map]
    rfl
  have hmnd : (mpairs.map Prod.fst).Nodup :=
    ((hperm.map Prod.fst).nodup_iff).mpr (hmapped_keys ▸ hk)
  have hmne : mpairs ≠ [] := by
    intro he
    subst he
    have hl := hperm.length_eq
    simp only [List.length_nil, RunnableParallel.invoke, List.length_map] at hl
    exact hn (List.length_eq_zero.mp hl.symm)
  have hmoutne : mpairs.map (fun p => Item.record [p]) ≠ ([] : List (Item α)) :=
    fun h => hmne (List.map_eq_nil_iff.mp h)
  have hstream : RunnableAssign.streamScheduled steps x mpairs =
      (if (filterKeys (steps.map Prod.fst) x).isEmpty then []
        else [Item.record (filterKeys (steps.map Prod.fst) x)]) ++
      mpairs.map (fun p => Item.record [p]) := by
    rw [RunnableAssign.streamScheduled]
    simp only [RunnableAssign.transformWith, drainPassthrough_all_records _
      [Item.record x] (by simp [Item.isRecord]),
      headD_cons_tail _ Item.null hmoutne]
    by_cases hf : (filterKeys (steps.map Prod.fst) x).isEmpty = true
    · have hfe := List.isEmpty_iff.mp hf
      simp [passFiltered, hf, hfe]
    · have hfe : ¬filterKeys (steps.map Prod.fst) x = [] := by
        intro he
        rw [he] at hf
        exact hf rfl
      simp [passFiltered, hf, hfe]
  have hmerged : mergeChunks (RunnableAssign.streamScheduled steps x mpairs) =
      some (Item.record (mpairs.foldl (fun acc p => dictInsert acc p.1 p.2)
        (filterKeys (steps.map Prod.fst) x))) := by
    rw [hstream]
    by_cases hf : (filterKeys (steps.map Prod.fst) x).isEmpty = true
    · have hfe := List.isEmpty_iff.mp hf
      rw [if_pos hf, List.nil_append, hfe, mergeChunks_singletons mpairs hmne]
    · rw [if_neg hf, List.singleton_append,
        mergeChunks_record_cons_singletons]
  have hinvnd : ((RunnableParallel.invoke steps x).map Prod.fst).Nodup :=
    hmapped_keys ▸ hk
  have hlook : ∀ k,
      lookupR k (mpairs.foldl (fun acc p => dictInsert acc p.1 p.2)
        (filterKeys (steps.map Prod.fst) x)) =
      lookupR k (dictMerge x (RunnableParallel.invoke steps x)) := by
    intro k
    rw [lookupR_foldl_dictInsert mpairs _ hmnd k,
      lookupR_dictMerge x _ hinvnd k,
      lookupR_perm hperm hmnd k]
    cases hv : lookupR k (RunnableParallel.invoke steps x) with
    | some v => rfl
    | none =>
      have hks : (steps.map Prod.fst).contains k = false := by
        have hkm := (lookupR_eq_none k _).mp hv
        rw [hmapped_keys] at hkm
        cases hb : (steps.map Prod.fst).contains k
        · rfl
        · exact absurd (by simpa using hb) hkm
      rw [lookupR_filterKeys _ x k hks]
  rw [mergeMatches, hmerged]
  exact recEqv_of_lookup_eq hlook

/-- Claim C1, as stated ("any mapper"), is false: for the empty mapper and
input `\x7b"a": 1\x7d`, `invoke` succeeds and returns `\x7b"a": 1\x7d`, but
`stream` yields the chunk `\x7b"a": 1\x7d` followed by the trailing `None`
of the exhausted map branch, so the concatenation of the stream is not a
record at all and cannot equal `invoke`'s result. -/
theorem C1_counterexample :
    mergeChunks (RunnableAssign.streamChunks ([] : Steps Int) [("a", 1)]) =
      Option.none ∧
    RunnableAssign.invokeV ([] : Steps Int) (Item.record [("a", 1)]) =
      Except.ok [("a", 1)] ∧
    mergeMatches (RunnableAssign.streamChunks ([] : Steps Int) [("a", 1)])
      [("a", 1)] = false :=
  ⟨by decide, rfl, by decide⟩

/-! ### Witnesses at concrete inputs -/

/-- The spec's example mapper, `\x7b"b": task_returns_99,
"c": task_returns_sum_of_a_b\x7d`. -/
def exampleMapper : Steps Int :=
  [("b", fun _ => 99),
   ("c", fun r => (lookupR "a" r).getD 0 + (lookupR "b" r).getD 0)]

/-- The spec's example run record for the chain mapper. -/
def exampleRun : Run Int := ⟨[("q", 7)], some [("ans", 9)], "chain"⟩

/-- Witness for C1 at the spec's example mapper and input
`\x7b"a": 1, "b": 2\x7d`, with the canonical scheduler order. -/
theorem C1_witness :
    RunnableAssign.invokeV exampleMapper (Item.record [("a", 1), ("b", 2)]) =
      Except.ok (dictMerge [("a", 1), ("b", 2)]
        (RunnableParallel.invoke exampleMapper [("a", 1), ("b", 2)])) ∧
    mergeMatches
      (RunnableAssign.streamScheduled exampleMapper [("a", 1), ("b", 2)]
        (RunnableParallel.invoke exampleMapper [("a", 1), ("b", 2)]))
      (dictMerge [("a", 1), ("b", 2)]
        (RunnableParallel.invoke exampleMapper [("a", 1), ("b", 2)])) =
      true :=
  C1_stream_merge_matches_invoke exampleMapper [("a", 1), ("b", 2)] _
    (List.cons_ne_nil _ _) (by decide) (List.Perm.refl _)

/-- Witness for C2 at a two-chunk input and a two-chunk map output. -/
theorem C2_witness :
    RunnableAssign.transformWith ["b", "c"]
        [Item.record [("b", (99 : Int))], Item.record [("c", 3)]]
        [Item.record [("a", 1)], Item.record [("b", 2)]] =
      ((passFiltered ["b", "c"]
          [Item.record [("a", (1 : Int))], Item.record [("b", 2)]]).map
          Item.record ++
        [Item.record [("b", 99)], Item.record [("c", 3)]], Option.none) ∧
    RunnableAssign.atransformWith ["b", "c"]
        [Item.record [("b", (99 : Int))], Item.record [("c", 3)]]
        [Item.record [("a", 1)], Item.record [("b", 2)]] =
      RunnableAssign.transformWith ["b", "c"]
        [Item.record [("b", (99 : Int))], Item.record [("c", 3)]]
        [Item.record [("a", 1)], Item.record [("b", 2)]] :=
  C2_passthrough_before_map _ _ _ (by decide) (by decide)

/-- Witness for C3: the spec's example — input `\x7b"a": 1, "b": 2\x7d`,
sub-tasks `\x7b"b": returns 99, "c": returns a+b\x7d` — invokes to
`\x7b"a": 1, "b": 99, "c": 3\x7d`. -/
theorem C3_witness :
    (exampleMapper.map Prod.fst).Nodup ∧
    RunnableAssign.invokeV exampleMapper (Item.record [("a", 1), ("b", 2)]) =
      Except.ok [("a", 1), ("b", 99), ("c", 3)] :=
  ⟨by decide,
    ((C3_invoke_shallow_union exampleMapper [("a", 1), ("b", 2)]
      (by decide)).1).trans rfl⟩

/-- Witness for C4: the spec's example — mapper keys `\x7b"b", "c"\x7d`,
chunks `\x7b"a": 1\x7d`, `\x7b"b": 2\x7d`, `\x7b\x7d` — yields exactly the
single passthrough chunk `\x7b"a": 1\x7d`. -/
theorem C4_witness :
    drainPassthrough ["b", "c"]
        [Item.record [("a", (1 : Int))], Item.record [("b", 2)],
          Item.record []] =
      ([[("a", 1)]], Option.none) :=
  (C4_passthrough_filter ["b", "c"] _ (by decide)).trans (by decide)

/-- Witness for C5 (amended) at the two-chunk input whose second chunk is
the bare integer 42: the filtered first chunk is yielded, then the call
fails with TypeMismatch. -/
theorem C5_witness :
    ([Item.record [("a", (1 : Int))], Item.scalar 42].all Item.isRecord =
      false) ∧
    RunnableAssign.transformWith ["b"] [Item.record [("b", (99 : Int))]]
        [Item.record [("a", 1)], Item.scalar 42] =
      ([Item.record [("a", 1)]], some AssignError.typeMismatch) :=
  ⟨by decide,
    ((C5_type_mismatch ([] : Steps Int) 0 ["b"]
      [Item.record [("b", (99 : Int))]]
      [Item.record [("a", 1)], Item.scalar 42] (by decide)).2.2.1).trans
      (by decide)⟩

/-- Witness for C7 at a run of type "chain" with input key "q" and
prediction key "ans" both present. -/
theorem C7_witness :
    ChainStringRunMapper.map "q" "ans" exampleRun =
      Except.ok [("input", 7), ("prediction", 9)] :=
  (C7_chain_run_mapper "q" "ans" exampleRun [("ans", 9)] rfl (by decide)
    rfl).trans rfl

/-- Witness for C8 at a one-chunk record input and an empty map-branch
output: the filtered chunk is followed by a trailing `None`. -/
theorem C8_witness :
    ([Item.record [("a", (1 : Int)), ("b", 2)]].all Item.isRecord = true) ∧
    RunnableAssign.transformWith ["b"] ([] : List (Item Int))
        [Item.record [("a", 1), ("b", 2)]] =
      ((passFiltered ["b"]
          [Item.record [("a", (1 : Int)), ("b", 2)]]).map Item.record ++
        [Item.null], Option.none) :=
  ⟨by decide,
    (C8_trailing_none_chunk ["b"] [Item.record [("a", 1), ("b", 2)]]
      (by decide)).1⟩
